import Mathlib

/-
Verification development for the meteor-astronomy repository.

The repository source under scrutiny contains two fragments:

1. The version-1 Fields module (src/lib/modules/fields/module.js, first
   fragment): document instances carrying a values map (last known canonical
   state) and a modified map (pending changes), with get / set / getModified /
   clone prototype methods and the initSchema hook installing the mandatory
   _id and _type fields.  This is embedded below in namespace AstroFields.

2. The version-2 validation engine (second fragment of the same file): the
   recursive documentValidate function with its two error-handling modes
   (stopOnFirstError true / false), silent skipping of unknown, transient and
   optional-absent fields, and recursion into nested object and list fields
   with extended path markers.  This is embedded in namespace AstroValidate.

JavaScript values are modelled by a small inductive type; machine behaviour
that the source delegates to collaborators absent from the repository slice
(type casting, the validator registry, field lookup helpers) is modelled from
the specification and marked as such in doc comments.
-/

namespace AstroFields

/-- JavaScript values as manipulated by the version-1 Fields module: the two
absent markers undefined and null, booleans, numbers, strings and plain
objects (association lists of properties). -/
inductive JsValue where
  | undefined
  | null
  | bool (b : Bool)
  | num (n : Int)
  | str (s : String)
  | obj (props : List (String × JsValue))

/-- JavaScript truthiness: undefined, null, false, 0 and the empty string are
falsy, everything else (including every object) is truthy. -/
def truthy : JsValue → Bool
  | .undefined => false
  | .null => false
  | .bool b => b
  | .num n => if n = 0 then false else true
  | .str s => if s.length = 0 then false else true
  | .obj _ => true

/-- JavaScript strict equality as; on primitives it is structural.  Two
object values compare unequal: the source only ever compares a freshly cast
value against a stored one, and distinct object references are never
strictly equal in JavaScript, so the model declares object comparisons
false. -/
def jsEq : JsValue → JsValue → Bool
  | .undefined, .undefined => true
  | .null, .null => true
  | .bool a, .bool b => a = b
  | .num a, .num b => a = b
  | .str a, .str b => a = b
  | _, _ => false

/-- Lookup of a property in an association-list object; none models a key
that is not present (so that reading it yields undefined). -/
def assocGet (k : String) : List (String × JsValue) → Option JsValue
  | [] => none
  | p :: rest => if p.1 = k then some p.2 else assocGet k rest

/-- Property read as JavaScript performs it: a missing key reads as
undefined. -/
def propGet (m : List (String × JsValue)) (k : String) : JsValue :=
  match assocGet k m with
  | some v => v
  | none => .undefined

/-- Property write: replaces the value in place when the key exists,
otherwise appends the new key, matching JavaScript object key order. -/
def assocSet (k : String) (v : JsValue) : List (String × JsValue) → List (String × JsValue)
  | [] => [(k, v)]
  | p :: rest => if p.1 = k then (k, v) :: rest else p :: assocSet k v rest

/-- Removal of a key from an object, as performed by the underscore omit
helper used in clone. -/
def eraseKey (k : String) (m : List (String × JsValue)) : List (String × JsValue) :=
  m.filter (fun p => if p.1 = k then false else true)

/-- Field types of the version-1 module that the claims exercise. -/
inductive Type1 where
  | booleanT
  | numberT
  | stringT
deriving DecidableEq

/-- One declared field: name, optional type and default value, as stored by
addField in the version-1 schema. -/
structure Field1 where
  name : String
  type : Option Type1
  default : JsValue

/-- One schema of the version-1 module: the class name and its own fields
map (insertion ordered). -/
structure Schema1 where
  className : String
  fields : List Field1

/-- Lookup of an own field definition by name on one schema
(schema.getField). -/
def getField (s : Schema1) (name : String) : Option Field1 :=
  s.fields.find? (fun f => f.name == name)

/-- A version-1 document instance: the values map (last known canonical
state), the modified map (pending changes), the chain of schemas walked by
the parent-class loops (own class first, ancestors after), and the plain
instance properties that underscore extend writes in clone. -/
structure Doc1 where
  values : List (String × JsValue)
  modified : List (String × JsValue)
  chain : List Schema1
  props : List (String × JsValue)

def idKey : String := "_id"

def typeKey : String := "_type"

/-- Walk of the parent chain performed by get: the first schema that owns
the field supplies its default, otherwise the read yields undefined. -/
def walkDefault : List Schema1 → String → JsValue
  | [], _ => .undefined
  | s :: rest, name =>
    match getField s name with
    | some f => f.default
    | none => walkDefault rest name

/-- Walk of the parent chain performed by getModified on a missing old
value: the first schema that owns the field supplies the field definition
object itself (exactly what the source assigns). -/
def walkFieldDef : List Schema1 → String → Option Field1
  | [], _ => none
  | s :: rest, name =>
    match getField s name with
    | some f => some f
    | none => walkFieldDef rest name

/-- Embedding of get for a single field name (src module.js lines 174 to
201): the null guard on the _id field, then the modified map, then the
values map, then the default found by walking the parent chain. -/
def getOne (d : Doc1) (name : String) : JsValue :=
  if name = idKey ∧ truthy (propGet d.values idKey) = false then .undefined
  else
    match assocGet name d.modified with
    | some v => v
    | none =>
      match assocGet name d.values with
      | some v => v
      | none => walkDefault d.chain name

/-- Decimal digit run parser used by the spec-modelled number cast; fails on
a non-digit and on the empty run. -/
def parseDigits : List Char → Option Nat
  | [] => none
  | cs =>
    cs.foldl
      (fun acc c =>
        match acc with
        | none => none
        | some a => if c.isDigit then some (a * 10 + (c.toNat - 48)) else none)
      (some 0)

/-- Modelled from the spec: numeric-string parsing for the Number cast of
section 4.2; an optional minus sign followed by decimal digits, anything
else is irreconcilable. -/
def parseInt (s : String) : Option Int :=
  match s.data with
  | [] => none
  | c :: rest =>
    if c = ('-') then (parseDigits rest).map (fun n => -(n : Int))
    else (parseDigits (c :: rest)).map (fun n => (n : Int))

def trueStr : String := "true"

def falseStr : String := "false"

/-- Modelled from the spec: convertFieldValueByType (section 4.2 of the
spec; the utility itself is outside the repository slice).  Null and
undefined pass through uncast; Boolean, Number and String perform
permissive coercion from common literal representations and fail (none,
standing for CastError) on irreconcilable input. -/
def castV1 : JsValue → Type1 → Option JsValue
  | .undefined, _ => some .undefined
  | .null, _ => some .null
  | .str s, .stringT => some (.str s)
  | .num n, .stringT => some (.str n.repr)
  | .bool b, .stringT => some (.str (cond b trueStr falseStr))
  | .obj _, .stringT => none
  | .num n, .numberT => some (.num n)
  | .str s, .numberT => (parseInt s).map JsValue.num
  | .bool b, .numberT => some (.num (cond b 1 0))
  | .obj _, .numberT => none
  | v, .booleanT => some (.bool (truthy v))

/-- Cast loop of set (src module.js lines 229 to 240): the do-while walks
the whole parent chain and pipes the value through the type of every schema
that owns the field; a failing cast (CastError) aborts the whole set. -/
def castChain : List Schema1 → String → JsValue → Option JsValue
  | [], _, v => some v
  | s :: rest, name, v =>
    match getField s name with
    | some f =>
      match f.type with
      | some t =>
        match castV1 v t with
        | some v2 => castChain rest name v2
        | none => none
      | none => castChain rest name v
    | none => castChain rest name v

/-- Embedding of set for one field name (src module.js lines 216 to 250):
the _id guard fires only when the values map already holds a truthy _id;
the value is cast along the parent chain; the write is dropped when the
values-map entry is truthy and strictly equal to the cast value; otherwise
the cast value is stored into the modified map.  none models a CastError
escaping to the caller. -/
def setOne (d : Doc1) (name : String) (v : JsValue) : Option Doc1 :=
  if name = idKey ∧ truthy (propGet d.values idKey) = true then some d
  else
    match castChain d.chain name v with
    | none => none
    | some c =>
      if truthy (propGet d.values name) = true ∧ jsEq c (propGet d.values name) = true then
        some d
      else
        some { d with modified := assocSet name c d.modified }

/-- Entries of the object returned by getModified true: either a plain old
value taken from the values map, or (exactly as the source assigns on a
missing old value) the field definition object found on the schema chain. -/
inductive ModEntry where
  | val (v : JsValue)
  | fdef (f : Field1)

/-- Embedding of getModified (src module.js lines 253 to 285).  With old
set, the keys of the modified map are picked out of the values map; for
keys absent there, the source comment promises the default value from the
schema, but the assignment stores the looked-up field definition object
itself (ModEntry.fdef), which this embedding reproduces verbatim. -/
def getModified (d : Doc1) (old : Bool) : List (String × ModEntry) :=
  if old = true then
    let modifiedKeys := d.modified.map (fun p => p.1)
    let oldValues :=
      modifiedKeys.filterMap
        (fun k => (assocGet k d.values).map (fun v => (k, ModEntry.val v)))
    let oldValuesKeys := oldValues.map (fun p => p.1)
    if modifiedKeys.length = oldValuesKeys.length then oldValues
    else
      let missingKeys := modifiedKeys.filter (fun k => oldValuesKeys.contains k = false)
      missingKeys.foldl
        (fun acc k =>
          match walkFieldDef d.chain k with
          | some f => acc ++ [(k, ModEntry.fdef f)]
          | none => acc)
        oldValues
  else d.modified.map (fun p => (p.1, ModEntry.val p.2))

/-- EJSON.clone performs a deep copy; on the pure value model a deep copy of
an immutable association list is the list itself. -/
def ejsonClone (m : List (String × JsValue)) : List (String × JsValue) := m

/-- Name of the instance property holding the values map. -/
def valuesKey : String := "_values"

/-- Name of the instance property holding the modified map. -/
def modifiedKey : String := "_modified"

/-- Property map read off a JavaScript value assigned over one of the
internal map slots: an object contributes its properties; assigning a
primitive leaves an instance all of whose subsequent field-name property
reads yield undefined, which the empty map models (the module never reads
anything but field-name properties off these slots). -/
def objProps : JsValue → List (String × JsValue)
  | .obj props => props
  | _ => []

/-- Underscore extend as used on the cloned instance (src module.js line
139): each attribute pair is assigned, in order, as a property of the
instance object.  A pair named _values or _modified therefore overwrites
the corresponding internal map (clobbering the freshly copied one), exactly
as property assignment does on the JavaScript instance; every other pair
lands as a plain instance property. -/
def extendInst : Doc1 → List (String × JsValue) → Doc1
  | c, [] => c
  | c, p :: rest =>
    if p.1 = valuesKey then extendInst { c with values := objProps p.2 } rest
    else if p.1 = modifiedKey then extendInst { c with modified := objProps p.2 } rest
    else extendInst { c with props := assocSet p.1 p.2 c.props } rest

/-- Embedding of clone with the save flag false (src module.js lines 128 to
147): a fresh instance (initInstance gives empty maps), values and modified
deep-copied from the original with the _id key omitted, then the attribute
pairs extended onto the instance (which can overwrite the copied maps when
attrs uses the reserved property names).  The pair returned is (cloned
document, state of the original after the call); the save-false path never
writes to the original, which the second component records. -/
def cloneNoSave (d : Doc1) (attrs : Option (List (String × JsValue))) : Doc1 × Doc1 :=
  let cloned : Doc1 := { values := [], modified := [], chain := d.chain, props := [] }
  let cloned := { cloned with values := ejsonClone (eraseKey idKey d.values) }
  let cloned := { cloned with modified := ejsonClone (eraseKey idKey d.modified) }
  let cloned :=
    match attrs with
    | some a => extendInst cloned a
    | none => cloned
  (cloned, d)

/-- Modelled from the spec: addField stores one field definition into the
schema fields map, replacing in place by name (names are unique within a
schema own declarations) and appending otherwise.  The helper itself lives
outside the repository slice. -/
def addField : List Field1 → Field1 → List Field1
  | [], f => [f]
  | g :: rest, f => if g.name = f.name then f :: rest else g :: addField rest f

/-- Embedding of the initSchema hook of the Fields module (src module.js
lines 293 to 308): starting from an empty fields map, the mandatory _id
field (type String, default null) is added, then, when the class has a
parent, the _type field defaulting to the class own name, then the fields
of the raw definition. -/
def initSchemaFields (hasParent : Bool) (className : String) (defFields : List Field1) :
    List Field1 :=
  let fs : List Field1 := []
  let fs := addField fs { name := idKey, type := some .stringT, default := .null }
  let fs :=
    if hasParent then
      addField fs { name := typeKey, type := some .stringT, default := .str className }
    else fs
  defFields.foldl addField fs

/-- Raw declaration of one class in an inheritance chain: whether it has a
parent, its name, and its own declared fields. -/
structure ClassSpec where
  hasParent : Bool
  cname : String
  own : List Field1

/-- Schema produced for one class declaration by the initSchema hook. -/
def mkSchema (cs : ClassSpec) : Schema1 :=
  { className := cs.cname, fields := initSchemaFields cs.hasParent cs.cname cs.own }

/-- Modelled from the spec: merged field resolution over the inheritance
chain (child first), child replaces by key and the parent provides the
rest (section 4.1 phase 3); identical to the parent-chain walk the source
performs field by field. -/
def mergedLookup (chain : List Schema1) (name : String) : Option Field1 :=
  walkFieldDef chain name

/-- Deduplication keeping the first (most derived) occurrence of every
name. -/
def dedupFirst : List String → List String
  | [] => []
  | s :: rest => s :: (dedupFirst rest).filter (fun t => if t = s then false else true)

/-- Modelled from the spec: the list of field names of the merged schema
(getFieldsNames with inherited fields), each name exactly once, child
occurrence first. -/
def mergedNames (chain : List Schema1) : List String :=
  dedupFirst (chain.foldr (fun s acc => s.fields.map (fun f => f.name) ++ acc) [])

/-- Refinement reference for claim C6, written from the words of the spec
(section 4.3): get resolves value precedence modified, then values, then
the field default walking the parent chain, else nothing. -/
def specResolve (d : Doc1) (name : String) : JsValue :=
  match assocGet name d.modified with
  | some v => v
  | none =>
    match assocGet name d.values with
    | some v => v
    | none => walkDefault d.chain name

end AstroFields

namespace AstroValidate

/-- JavaScript values as seen by the version-2 validation engine: primitives,
arrays, and class instances (an instance carries its class name and its
canonical field values). -/
inductive Value where
  | undefined
  | null
  | bool (b : Bool)
  | num (n : Int)
  | str (s : String)
  | list (elems : List Value)
  | inst (cls : String) (vals : List (String × Value))

/-- A document is a class instance: its class name paired with its canonical
field values. -/
abbrev DocV2 := String × List (String × Value)

/-- Scalar type descriptors the claims exercise. -/
inductive SType where
  | boolT
  | numT
  | strT
deriving DecidableEq

/-- Kind of a field: a scalar, an object field referencing a class, a list of
scalars, or a list of class instances (a ListField with isClass set). -/
inductive FieldKind where
  | scalar (t : SType)
  | objectF (cls : String)
  | listScalar (t : SType)
  | listClass (cls : String)
deriving DecidableEq

/-- One field definition of the version-2 engine: name, kind, and the
optional and transient flags consulted by documentValidate.  The source
calls field.getOptional(doc); the model carries the resolved boolean. -/
structure FieldDefV2 where
  name : String
  kind : FieldKind
  optional : Bool
  transient : Bool
  default : Value

/-- One validator attached to a field: the registered kind name, its
parameter and its message (resolveParam and resolveError of the source are
call-time conveniences the claims never exercise). -/
structure ValidatorDefV2 where
  vtype : String
  param : Value
  message : String

/-- The merged surface of one class as the validation engine consults it:
merged field definitions (getField), the default validation order
(getValidationOrder) and the validators list (getValidators). -/
structure ClassDefV2 where
  fields : List FieldDefV2
  validationOrder : List String
  validators : List (String × ValidatorDefV2)

/-- The process-wide class registry. -/
abbrev World := List (String × ClassDefV2)

/-- One entry of a ValidationError details list: the dot-qualified field
path, the validator kind and the message. -/
structure ErrDetail where
  name : String
  vtype : String
  message : String
deriving DecidableEq

/-- JavaScript exceptions the engine distinguishes: a ValidationError
carrying its ordered details list and a reason, or any other error (for
instance the TypeError raised by calling an unregistered validator), which
catchValidationError always rethrows. -/
inductive JsErr where
  | ve (details : List ErrDetail) (reason : String)
  | other (msg : String)
deriving DecidableEq

def lookupClass (w : World) (cls : String) : Option ClassDefV2 :=
  match w with
  | [] => none
  | p :: rest => if p.1 = cls then some p.2 else lookupClass rest cls

/-- Modelled from the spec: Class.getField resolved against the merged
fields of the class (the static helper lives outside the repository
slice). -/
def getFieldW (w : World) (cls : String) (name : String) : Option FieldDefV2 :=
  match lookupClass w cls with
  | some cd => cd.fields.find? (fun f => f.name == name)
  | none => none

/-- Modelled from the spec: Class.getValidationOrder, the default validation
order of a class (ancestor fields before own, already merged into the class
definition). -/
def validationOrderW (w : World) (cls : String) : List String :=
  match lookupClass w cls with
  | some cd => cd.validationOrder
  | none => []

/-- Modelled from the spec: Class.getValidators for one field name. -/
def getValidatorsW (w : World) (cls : String) (name : String) : List ValidatorDefV2 :=
  match lookupClass w cls with
  | some cd => (cd.validators.filter (fun p => p.1 == name)).map (fun p => p.2)
  | none => []

/-- Modelled from the spec: doc.get inside the validation walk resolves the
canonical value: the instance values map, else the field default from the
class definition, else undefined. -/
def getV2 (w : World) (doc : DocV2) (name : String) : Value :=
  match doc.2.lookup name with
  | some v => v
  | none =>
    match getFieldW w doc.1 name with
    | some f => f.default
    | none => .undefined

/-- Lodash isNil: null or undefined. -/
def isNil : Value → Bool
  | .undefined => true
  | .null => true
  | _ => false

/-- Modelled from the spec: castNested normalizes nested fields before the
walk starts; on a document whose values are already canonical it changes
nothing, and the model works on canonical documents. -/
def castNested (doc : DocV2) : DocV2 := doc

def dotStr : String := "."

def dollarStr : String := "$"

/-- Modelled from the spec: isNestedFieldName recognizes a dotted or
wildcard field path addressing a field inside an embedded object or
list. -/
def isNestedFieldName (name : String) : Bool :=
  name.data.contains ('.')

/-- Splitting of a character list on the dot separator. -/
def splitDots : List Char → List (List Char)
  | [] => [[]]
  | c :: rest =>
    let tail := splitDots rest
    if c = ('.') then [] :: tail
    else
      match tail with
      | seg :: segs => (c :: seg) :: segs
      | [] => [[c]]

/-- Segments of a dotted field path. -/
def segsOf (name : String) : List String :=
  (splitDots name.data).map (fun cs => String.mk cs)

def strEmpty : String := ""

/-- Last segment of a nested field path (the name validated on the most
nested document). -/
def lastSegOf (name : String) : String :=
  match (segsOf name).getLast? with
  | some s => s
  | none => strEmpty

/-- The JavaScript expression name.substr(0, name.lastIndexOf(nestedName)):
everything before the last occurrence of the nested name. -/
def nestHead (name nested : String) : String :=
  let h := name.data
  let s := nested.data
  let idxs := (List.range (h.length + 1)).filter (fun i => s.isPrefixOf (h.drop i))
  match idxs.getLast? with
  | some i => String.mk (h.take i)
  | none => strEmpty

/-- Modelled from the spec: the traverse utility resolves a nested field
pattern to the concrete most-nested documents, the list wildcard expanding
to every current element (section 4.4 of the spec; the utility lives
outside the repository slice). -/
def resolveTargets (w : World) (doc : DocV2) : List String → List DocV2
  | [] => []
  | [_] => [doc]
  | seg :: wild :: rest2 =>
    if wild = dollarStr then
      match getV2 w doc seg with
      | .list xs =>
        xs.foldr
          (fun e acc =>
            match e with
            | .inst c vs =>
              (match rest2 with
               | [] => []
               | _ :: _ => resolveTargets w (c, vs) rest2) ++ acc
            | _ => acc)
          []
      | _ => []
    else
      match getV2 w doc seg with
      | .inst c vs => resolveTargets w (c, vs) (wild :: rest2)
      | _ => []

def requiredKey : String := "required"

def minNumberKey : String := "minNumber"

def notFunctionMsg : String := " is not a function"

def typeVKey : String := "type"

def typeFailMsg : String := "Type check failed for field "

/-- Whether a value matches a field kind at the type level; null and
undefined pass through (absence is legitimate, the optional rule governs
it). -/
def typeOk : FieldKind → Value → Bool
  | _, .undefined => true
  | _, .null => true
  | .scalar .boolT, .bool _ => true
  | .scalar .numT, .num _ => true
  | .scalar .strT, .str _ => true
  | .objectF c, .inst c2 _ => c2 = c
  | .listScalar .boolT, .list xs => xs.all (fun e => match e with | .bool _ => true | .undefined => true | .null => true | _ => false)
  | .listScalar .numT, .list xs => xs.all (fun e => match e with | .num _ => true | .undefined => true | .null => true | _ => false)
  | .listScalar .strT, .list xs => xs.all (fun e => match e with | .str _ => true | .undefined => true | .null => true | _ => false)
  | .listClass c, .list xs => xs.all (fun e => match e with | .inst c2 _ => c2 = c | _ => false)
  | _, _ => false

/-- Modelled from the spec: the type-level validate of a field (section 4.2
and 4.4); on a mismatching value it throws a ValidationError whose single
detail is tagged with the full prefixed path and the type validator kind. -/
def fieldValidate (field : FieldDefV2) (pname : String) (value : Value) : Except JsErr Unit :=
  if typeOk field.kind value then .ok ()
  else .error (.ve [⟨pname, typeVKey, typeFailMsg ++ pname⟩] (typeFailMsg ++ pname))

/-- Modelled from the spec: the process-wide validator registry (section 6),
populated here with the required and minNumber kinds; looking up an
unregistered kind and calling it raises a TypeError, a non-ValidationError
that the engine always rethrows. -/
def runValidator (vt : String) (pname : String) (value : Value) (param : Value)
    (message : String) : Except JsErr Unit :=
  if vt = requiredKey then
    if isNil value then .error (.ve [⟨pname, vt, message⟩] message) else .ok ()
  else if vt = minNumberKey then
    match value, param with
    | .num n, .num p => if n < p then .error (.ve [⟨pname, vt, message⟩] message) else .ok ()
    | _, _ => .ok ()
  else .error (.other (vt ++ notFunctionMsg))

/-- The loop over the validators registered for a field (src second fragment
lines 447 to 468): each validator runs in turn, the first throw aborting the
loop (the whole loop runs inside one catchValidationError). -/
def runValidators : List ValidatorDefV2 → String → Value → Except JsErr Unit
  | [], _, _ => .ok ()
  | vd :: rest, pname, value =>
    match runValidator vd.vtype pname value vd.param vd.message with
    | .error e => .error e
    | .ok _ => runValidators rest pname value

/-- The body of the try block guarding one field (src second fragment lines
438 to 469): the type-level validate of the field, then every registered
validator for the field name, all tagged with the prefixed path. -/
def ownValidation (w : World) (cls : String) (field : FieldDefV2) (name : String)
    (pfx : String) (value : Value) : Except JsErr Unit :=
  match fieldValidate field (pfx ++ name) value with
  | .error e => .error e
  | .ok _ => runValidators (getValidatorsW w cls name) (pfx ++ name) value

/-- Embedding of catchValidationError (src second fragment lines 367 to
390) acting on the state of the errors list: a ValidationError is rethrown
when stopOnFirstError is set and its details are appended to the collected
errors otherwise; any other error is rethrown. -/
def catchVE (stop : Bool) (errors : List ErrDetail) (r : Except JsErr Unit) :
    Except JsErr (List ErrDetail) :=
  match r with
  | .ok _ => .ok errors
  | .error e =>
    match e with
    | .ve details _ =>
      if stop then .error e
      else .ok (errors ++ details)
    | .other m => .error (.other m)

/-- Sequencing in the error monad of the walk: a thrown error propagates,
otherwise the collected errors flow to the continuation. -/
def bindE (x : Except JsErr (List ErrDetail)) (f : List ErrDetail → Except JsErr (List ErrDetail)) :
    Except JsErr (List ErrDetail) :=
  match x with
  | .error e => .error e
  | .ok a => f a

/-- The underscore each loops of the walk rendered as a fold threading the
errors list; a throw escaping one iteration aborts the loop. -/
def foldSteps {α : Type} (g : List ErrDetail → α → Except JsErr (List ErrDetail)) :
    List ErrDetail → List α → Except JsErr (List ErrDetail)
  | errors, [] => .ok errors
  | errors, x :: xs =>
    match g errors x with
    | .error e => .error e
    | .ok e2 => foldSteps g e2 xs

/-- The object-field and list-field recursion tail of one field step (src
second fragment lines 471 to 498): an object field whose value is a class
instance recurses with the field name and a dot appended to the path and
the caller stopOnFirstError flag (simulation reverts to its default true);
a list-of-class field recurses into each element that is a class instance
with the element index spliced into the path. -/
def kindStep (w : World)
    (recur : DocV2 → Option (List String) → String → Bool → Bool → Except JsErr Unit)
    (pfx : String) (stop : Bool) (field : FieldDefV2) (value : Value)
    (errors : List ErrDetail) : Except JsErr (List ErrDetail) :=
  match field.kind with
  | .objectF _ =>
    match value with
    | .inst c vs =>
      catchVE stop errors
        (recur (c, vs) (some (validationOrderW w c)) (pfx ++ field.name ++ dotStr) stop true)
    | _ => .ok errors
  | .listClass _ =>
    match value with
    | .list elems =>
      foldSteps
        (fun errs p =>
          match p.2 with
          | .inst c vs =>
            catchVE stop errs
              (recur (c, vs) (some (validationOrderW w c))
                (pfx ++ field.name ++ dotStr ++ Nat.repr p.1 ++ dotStr) stop true)
          | _ => .ok errs)
        errors elems.enum
    | _ => .ok errors
  | _ => .ok errors

/-- One iteration of the walk over the validation set (src second fragment
lines 398 to 499): the nested-pattern branch traverses to the concrete
targets and recurses on each; otherwise the field is resolved by name
(silently skipped when unknown), transient fields are skipped, the value is
read, optional fields with an absent value are skipped, the guarded
validation block runs, and the object or list recursion tail follows. -/
def stepField (w : World)
    (recur : DocV2 → Option (List String) → String → Bool → Bool → Except JsErr Unit)
    (doc : DocV2) (pfx : String) (stop simulation : Bool)
    (errors : List ErrDetail) (name : String) : Except JsErr (List ErrDetail) :=
  if isNestedFieldName name then
    foldSteps
      (fun errs nd =>
        catchVE stop errs
          (recur nd (some [lastSegOf name]) (pfx ++ nestHead name (lastSegOf name)) stop simulation))
      errors (resolveTargets w doc (segsOf name))
  else
    match getFieldW w doc.1 name with
    | none => .ok errors
    | some field =>
      if field.transient then .ok errors
      else
        let value := getV2 w doc name
        if field.optional && isNil value then .ok errors
        else
          bindE (catchVE stop errors (ownValidation w doc.1 field name pfx value))
            (fun errors1 => kindStep w recur pfx stop field value errors1)

def overflowMsg : String := "Maximum call stack size exceeded"

/-- Embedding of documentValidate (src second fragment lines 341 to 506).
Parameters follow the source options object: the document, the optional
explicit field set (the class default validation order when absent), the
accumulated path, stopOnFirstError and simulation; isServer stands for the
external execution-context predicate and fuel bounds the call stack (plain
call-stack recursion in the source).  The walk folds stepField over the
field names from an empty errors list; when the fold finishes without a
throw and the collected list is nonempty, one ValidationError with the full
ordered list (and the first message as reason) is thrown at the end. -/
def docValidate (w : World) (isServer : Bool) : Nat → DocV2 → Option (List String) →
    String → Bool → Bool → Except JsErr Unit
  | 0, _, _, _, _, _ => .error (.other overflowMsg)
  | fuel + 1, doc, fieldsOpt, pfx, stop, simulation =>
    if !simulation && !isServer then .ok ()
    else
      let doc := castNested doc
      let fields :=
        match fieldsOpt with
        | some fs => fs
        | none => validationOrderW w doc.1
      match
        foldSteps
          (stepField w (fun d f p s sm => docValidate w isServer fuel d f p s sm) doc pfx
            stop simulation)
          [] fields with
      | .error e => .error e
      | .ok errors =>
        match errors with
        | [] => .ok ()
        | d :: _ => .error (.ve errors d.message)

/-- Recursion closure used for the nested documentValidate calls at one
fuel level below the caller. -/
def recurOf (w : World) (isServer : Bool) (fuel : Nat) :
    DocV2 → Option (List String) → String → Bool → Bool → Except JsErr Unit :=
  fun d f p s sm => docValidate w isServer fuel d f p s sm

end AstroValidate

namespace AstroValidate

/-- Appending previously collected errors in front of the outcome of a
walk fragment run from an empty errors list. -/
def mapAppend (errors : List ErrDetail) : Except JsErr (List ErrDetail) → Except JsErr (List ErrDetail)
  | .ok d => .ok (errors ++ d)
  | .error e => .error e

/-- A walk fragment accumulates: its behaviour from any starting errors
list is its behaviour from the empty list with the starting errors
prepended.  Every collect-mode fragment of the engine has this shape. -/
def Accum (f : List ErrDetail → Except JsErr (List ErrDetail)) : Prop :=
  ∀ errors, f errors = mapAppend errors (f [])

/-- Concatenation of the per-field error details in walk order. -/
def catList (ds : String → List ErrDetail) : List String → List ErrDetail
  | [] => []
  | n :: rest => ds n ++ catList ds rest

/-- The three silent-skip situations of the walk: the name resolves to no
field definition anywhere, the field is transient, or the field is optional
and its current value is absent. -/
def SkipCase (w : World) (doc : DocV2) (n : String) : Prop :=
  isNestedFieldName n = false ∧
  (getFieldW w doc.1 n = none ∨
   (∃ f, getFieldW w doc.1 n = some f ∧ f.transient = true) ∨
   (∃ f, getFieldW w doc.1 n = some f ∧ f.transient = false ∧ f.optional = true ∧
     isNil (getV2 w doc n) = true))

def tooSmallMsg : String := "too small"

/-- Detail produced by the failing type-level validation of field a in the
concrete example world. -/
def daDet : ErrDetail := { name := "a", vtype := typeVKey, message := typeFailMsg ++ "a" }

/-- Detail produced by the failing minNumber validator of field b in the
concrete example world. -/
def dbDet : ErrDetail := { name := "b", vtype := minNumberKey, message := tooSmallMsg }

/-- Field definitions of the concrete example class Post. -/
def titleFld : FieldDefV2 :=
  { name := "title", kind := .scalar .strT, optional := false, transient := false, default := .undefined }

def aFld : FieldDefV2 :=
  { name := "a", kind := .scalar .numT, optional := false, transient := false, default := .undefined }

def bFld : FieldDefV2 :=
  { name := "b", kind := .scalar .numT, optional := false, transient := false, default := .undefined }

def tmpFld : FieldDefV2 :=
  { name := "tmp", kind := .scalar .numT, optional := false, transient := true, default := .undefined }

def optFld : FieldDefV2 :=
  { name := "opt", kind := .scalar .numT, optional := true, transient := false, default := .null }

/-- Concrete example class with two independently failing fields (a fails
its type-level check, b fails its minNumber validator), one valid field,
one transient field and one optional field. -/
def postCD : ClassDefV2 :=
  { fields := [titleFld, aFld, bFld, tmpFld, optFld],
    validationOrder := ["title", "a", "b"],
    validators := [("b", { vtype := minNumberKey, param := .num 10, message := tooSmallMsg })] }

def w1 : World := [("Post", postCD)]

/-- Concrete document whose a value fails the type check and whose b value
fails the minNumber validator. -/
def postDoc : DocV2 :=
  ("Post", [("title", .str "ok"), ("a", .str "bad"), ("b", .num 3), ("tmp", .str "junk")])

/-- Document whose optional field carries a present invalid value. -/
def postDocOpt : DocV2 := ("Post", [("opt", .str "nope")])

/-- Per-field collected details of the example walk. -/
def dsFun : String → List ErrDetail :=
  fun n => if n = "a" then [daDet] else if n = "b" then [dbDet] else []

/-- Nested example: class Inner holds one numeric field. -/
def innerCD : ClassDefV2 :=
  { fields := [{ name := "age", kind := .scalar .numT, optional := false, transient := false, default := .undefined }],
    validationOrder := ["age"],
    validators := [] }

def childFld : FieldDefV2 :=
  { name := "child", kind := .objectF "Inner", optional := false, transient := false, default := .undefined }

def itemsFld : FieldDefV2 :=
  { name := "items", kind := .listClass "Inner", optional := false, transient := false, default := .undefined }

/-- Nested example: class Outer embeds one Inner instance and one list of
Inner instances. -/
def outerCD : ClassDefV2 :=
  { fields := [childFld, itemsFld], validationOrder := ["child", "items"], validators := [] }

def w2 : World := [("Inner", innerCD), ("Outer", outerCD)]

/-- Inner instance whose age value is invalid. -/
def innerBadVals : List (String × Value) := [("age", .str "boom")]

/-- Outer document: the embedded instance fails, and the second list element
fails. -/
def outerDoc2 : DocV2 :=
  ("Outer",
   [("child", .inst "Inner" innerBadVals),
    ("items", .list [.inst "Inner" [("age", .num 1)], .inst "Inner" innerBadVals])])

end AstroValidate

namespace AstroFields

/-- The mandatory _id field installed by initSchema. -/
def idField1 : Field1 := { name := idKey, type := some .stringT, default := .null }

def exFieldX : Field1 := { name := "x", type := some .numberT, default := .num 5 }

def exFieldT : Field1 := { name := "t", type := some .numberT, default := .num 0 }

def exFieldY : Field1 := { name := "y", type := some .numberT, default := .num 1 }

/-- Concrete example schema owning _id and three numeric fields. -/
def exSchema : Schema1 :=
  { className := "Post", fields := [idField1, exFieldX, exFieldT, exFieldY] }

/-- A freshly created document: empty values and modified maps. -/
def exFresh : Doc1 := { values := [], modified := [], chain := [exSchema], props := [] }

/-- A saved document: values holds a truthy _id, a truthy t and a falsy y. -/
def exDocV : Doc1 :=
  { values := [(idKey, .str "abc"), ("t", .num 3), ("y", .num 0)],
    modified := [], chain := [exSchema], props := [] }

/-- State of the fresh document after set of _id to the string a. -/
def exDa : Doc1 := { exFresh with modified := [(idKey, .str "a")] }

/-- State of that document after a second set of _id to the string b. -/
def exDb : Doc1 := { exFresh with modified := [(idKey, .str "b")] }

/-- A fresh document whose x field has a pending modification while the
values map holds nothing for it (its prior state is only the schema
default). -/
def exMod : Doc1 := { exFresh with modified := [("x", .num 7)] }

/-- The fresh document after setting x to its (already resolved) default
value 5: the write is recorded anyway. -/
def exMod5 : Doc1 := { exFresh with modified := [(("x"), JsValue.num 5)] }

/-- Concrete class declarations for the schema-composition example: a Child
class with a parent and one own field, and a parentless Parent class. -/
def exChildSpec : ClassSpec := { hasParent := true, cname := "Child", own := [exFieldX] }

def exParentSpec : ClassSpec := { hasParent := false, cname := "Parent", own := [] }

end AstroFields

namespace AstroFields

theorem assocGet_assocSet (k : String) (v : JsValue) (m : List (String × JsValue)) :
    assocGet k (assocSet k v m) = some v := by
  induction m with
  | nil => simp [assocSet, assocGet]
  | cons p rest ih =>
    by_cases h : p.1 = k
    · simp [assocSet, h, assocGet]
    · simp [assocSet, h, assocGet, ih]

theorem extendInst_fields (a : List (String × JsValue)) :
    ∀ c : Doc1, (∀ p ∈ a, p.1 ≠ valuesKey ∧ p.1 ≠ modifiedKey) →
      (extendInst c a).values = c.values ∧ (extendInst c a).modified = c.modified ∧
      (extendInst c a).chain = c.chain := by
  induction a with
  | nil => intro c _; exact ⟨rfl, rfl, rfl⟩
  | cons p rest ih =>
    intro c h
    have hp := h p (List.mem_cons_self _ _)
    simp only [extendInst]
    rw [if_neg hp.1, if_neg hp.2]
    exact ih { c with props := assocSet p.1 p.2 c.props }
      (fun q hq => h q (List.mem_cons_of_mem _ hq))

/-- C10 counterexample: clone writes the attribute pairs onto the instance
itself, so an attrs entry named _values overwrites the freshly copied
values map: cloned from a document whose values hold t and y, the clone
comes back with the attrs-supplied map instead of the original values
minus _id. -/
theorem c10_clone_counterexample :
    (cloneNoSave exDocV (some [(valuesKey, JsValue.obj [(("hacked"), JsValue.num 1)])])).1.values =
      [(("hacked"), JsValue.num 1)] ∧
    [(("hacked"), JsValue.num 1)] ≠ eraseKey idKey exDocV.values := by
  refine ⟨rfl, ?_⟩
  intro h
  injection h with h1 h2
  injection h1 with ha hb
  exact absurd ha (by decide)

/-- C10 (amended): provided attrs does not itself assign the reserved
instance properties _values or _modified, clone with the save flag false
returns a new instance of the same class whose values and modified maps
are deep copies of the originals with the _id key removed from both, and
leaves the original document unchanged; an attrs entry with a reserved
name instead overwrites the corresponding freshly copied map. -/
theorem c10_clone_drops_id (d : Doc1) (attrs : Option (List (String × JsValue)))
    (h : ∀ p ∈ attrs.getD [], p.1 ≠ valuesKey ∧ p.1 ≠ modifiedKey) :
    (cloneNoSave d attrs).1.values = eraseKey idKey d.values ∧
    (cloneNoSave d attrs).1.modified = eraseKey idKey d.modified ∧
    (cloneNoSave d attrs).1.chain = d.chain ∧
    (cloneNoSave d attrs).2 = d := by
  cases attrs with
  | none => exact ⟨rfl, rfl, rfl, rfl⟩
  | some a =>
    have he := extendInst_fields a
      { values := ejsonClone (eraseKey idKey d.values),
        modified := ejsonClone (eraseKey idKey d.modified),
        chain := d.chain, props := [] } h
    exact ⟨he.1, he.2.1, he.2.2, rfl⟩

theorem c10_clone_drops_id_witness :
    (cloneNoSave exDocV (some [(("note"), JsValue.str "copy")])).1.values =
      eraseKey idKey exDocV.values ∧
    (cloneNoSave exDocV (some [(("note"), JsValue.str "copy")])).1.modified =
      eraseKey idKey exDocV.modified ∧
    (cloneNoSave exDocV (some [(("note"), JsValue.str "copy")])).1.chain = exDocV.chain ∧
    (cloneNoSave exDocV (some [(("note"), JsValue.str "copy")])).2 = exDocV :=
  c10_clone_drops_id exDocV (some [(("note"), JsValue.str "copy")]) (by decide)

/-- C6: for every field name other than _id, get returns the modified entry
if one exists, else the values entry if one exists, else the default of the
field found by walking the parent chain, else nothing; this is exactly the
precedence the spec words as modified, then values, then default. -/
theorem c6_get_precedence (d : Doc1) (name : String) (h : name ≠ idKey) :
    getOne d name = specResolve d name := by
  unfold getOne specResolve
  rw [if_neg (fun hc => h hc.1)]

theorem c6_get_precedence_witness : getOne exDocV ("t") = specResolve exDocV ("t") :=
  c6_get_precedence exDocV ("t") (by decide)

/-- C3 counterexample: on a fresh document (values map empty) set of _id to
the string a followed by set of _id to the string b leaves the modified map
holding b, and the resolved value of _id (through get) is nothing rather
than a: the immutability guard reads the values map, which a plain set
never writes. -/
theorem c3_id_set_counterexample :
    setOne exFresh idKey (.str "a") = some exDa ∧
    setOne exDa idKey (.str "b") = some exDb ∧
    assocGet idKey exDb.modified = some (.str "b") ∧
    getOne exDb idKey ≠ .str "a" := by
  refine ⟨rfl, rfl, rfl, ?_⟩
  intro h
  exact JsValue.noConfusion h

/-- C3 amended: set refuses to change _id only once the values map holds a
truthy _id (the state a save or load produces); a pending _id in the
modified map does not arm the guard. -/
theorem c3_id_immutable_amended (d : Doc1) (v : JsValue)
    (h : truthy (propGet d.values idKey) = true) :
    setOne d idKey v = some d := by
  unfold setOne
  rw [if_pos ⟨rfl, h⟩]

theorem c3_id_immutable_amended_witness : setOne exDocV idKey (.str "zzz") = some exDocV :=
  c3_id_immutable_amended exDocV (.str "zzz") rfl

/-- C4 counterexample: on a fresh document whose x field resolves to its
schema default 5, setting x to 5 casts to exactly the currently resolved
value, yet the write is recorded: the no-op comparison reads the values
map, not the resolved value, and an absent values entry is falsy. -/
theorem c4_noop_counterexample :
    getOne exFresh ("x") = .num 5 ∧
    castChain exFresh.chain ("x") (.num 5) = some (.num 5) ∧
    setOne exFresh ("x") (.num 5) = some exMod5 ∧
    exMod5.modified ≠ exFresh.modified := by
  refine ⟨rfl, rfl, rfl, ?_⟩
  exact List.cons_ne_nil _ _

/-- C4 amended: set is dropped silently exactly when the values-map entry
for the field is truthy and strictly equal to the cast value; in that case
the modified map (indeed the whole document) is left unchanged. -/
theorem c4_noop_amended (d : Doc1) (name : String) (v c : JsValue)
    (hc : castChain d.chain name v = some c)
    (ht : truthy (propGet d.values name) = true)
    (he : jsEq c (propGet d.values name) = true) :
    setOne d name v = some d := by
  unfold setOne
  by_cases hid : name = idKey ∧ truthy (propGet d.values idKey) = true
  · rw [if_pos hid]
  · rw [if_neg hid, hc]
    show (if truthy (propGet d.values name) = true ∧ jsEq c (propGet d.values name) = true
        then some d else some { d with modified := assocSet name c d.modified }) = some d
    rw [if_pos ⟨ht, he⟩]

theorem c4_noop_amended_witness : setOne exDocV ("t") (.num 3) = some exDocV :=
  c4_noop_amended exDocV ("t") (.num 3) (.num 3) rfl rfl rfl

/-- C9: when the values-map entry of a field is falsy (0, false, the empty
string, null, or absent altogether), set never drops the write: the cast
value is always recorded into the modified map, even when it equals the
current value. -/
theorem c9_falsy_always_recorded (d : Doc1) (name : String) (v c : JsValue)
    (hf : truthy (propGet d.values name) = false)
    (hc : castChain d.chain name v = some c) :
    setOne d name v = some { d with modified := assocSet name c d.modified } ∧
    assocGet name (assocSet name c d.modified) = some c := by
  constructor
  · unfold setOne
    have hid : ¬(name = idKey ∧ truthy (propGet d.values idKey) = true) := by
      rintro ⟨h1, h2⟩
      rw [h1] at hf
      rw [hf] at h2
      exact Bool.noConfusion h2
    rw [if_neg hid, hc]
    show (if truthy (propGet d.values name) = true ∧ jsEq c (propGet d.values name) = true
        then some d else some { d with modified := assocSet name c d.modified }) =
      some { d with modified := assocSet name c d.modified }
    rw [if_neg]
    rintro ⟨h1, _⟩
    rw [hf] at h1
    exact Bool.noConfusion h1
  · exact assocGet_assocSet name c d.modified

theorem c9_falsy_always_recorded_witness :
    setOne exDocV ("y") (.num 0) = some { exDocV with modified := assocSet ("y") (.num 0) exDocV.modified } ∧
    assocGet ("y") (assocSet ("y") (.num 0) exDocV.modified) = some (.num 0) :=
  c9_falsy_always_recorded exDocV ("y") (.num 0) (.num 0) rfl rfl

/-- C5: evaluation of getModified true at a document whose modified field x
has no values-map entry: the source stores the field definition object
found on the schema chain (its own comment and the spec promise the
default value, 5); the returned entry is the field definition, not the
default value. -/
theorem c5_getmodified_returns_fielddef :
    getModified exMod true = [(("x"), ModEntry.fdef exFieldX)] ∧
    ModEntry.fdef exFieldX ≠ ModEntry.val (.num 5) := by
  refine ⟨rfl, ?_⟩
  intro h
  exact ModEntry.noConfusion h

end AstroFields

namespace AstroFields

theorem find?_addField_ne (fs : List Field1) (f : Field1) (k : String) (h : f.name ≠ k) :
    (addField fs f).find? (fun g => g.name == k) = fs.find? (fun g => g.name == k) := by
  induction fs with
  | nil =>
    simp only [addField, List.find?]
    rw [show (f.name == k) = false by simp [h]]
  | cons g rest ih =>
    by_cases hg : g.name = f.name
    · simp only [addField, if_pos hg, List.find?]
      rw [show (f.name == k) = false by simp [h], show (g.name == k) = false by simp [hg ▸ h]]
    · simp only [addField, if_neg hg, List.find?]
      cases hgk : g.name == k
      · exact ih
      · rfl

theorem find?_foldl_addField (dfs : List Field1) (k : String) (h : ∀ f ∈ dfs, f.name ≠ k) :
    ∀ fs, (dfs.foldl addField fs).find? (fun g => g.name == k) =
      fs.find? (fun g => g.name == k) := by
  induction dfs with
  | nil => intro fs; rfl
  | cons f rest ih =>
    intro fs
    show ((rest.foldl addField (addField fs f)).find? fun g => g.name == k) = _
    rw [ih (fun g hg => h g (List.mem_cons_of_mem _ hg)) (addField fs f),
      find?_addField_ne fs f k (h f (List.mem_cons_self _ _))]

theorem initSchema_find_id (hp : Bool) (cn : String) (dfs : List Field1)
    (h : ∀ f ∈ dfs, f.name ≠ idKey) :
    (initSchemaFields hp cn dfs).find? (fun g => g.name == idKey) = some idField1 := by
  simp only [initSchemaFields]
  rw [find?_foldl_addField dfs idKey h]
  cases hp <;> rfl

theorem initSchema_find_type (cn : String) (dfs : List Field1)
    (h : ∀ f ∈ dfs, f.name ≠ typeKey) :
    (initSchemaFields true cn dfs).find? (fun g => g.name == typeKey) =
      some { name := typeKey, type := some .stringT, default := .str cn } := by
  simp only [initSchemaFields]
  rw [find?_foldl_addField dfs typeKey h]
  rfl

theorem dedupFirst_nodup (l : List String) : (dedupFirst l).Nodup := by
  induction l with
  | nil => simp [dedupFirst]
  | cons s rest ih =>
    simp only [dedupFirst]
    refine List.nodup_cons.mpr ⟨?_, ih.filter _⟩
    intro hmem
    have := List.of_mem_filter hmem
    simp at this

theorem mem_dedupFirst (a : String) (l : List String) (h : a ∈ l) : a ∈ dedupFirst l := by
  induction l with
  | nil => cases h
  | cons s rest ih =>
    simp only [dedupFirst]
    rcases List.mem_cons.mp h with rfl | hr
    · exact List.mem_cons_self _ _
    · by_cases has : a = s
      · subst has; exact List.mem_cons_self _ _
      · exact List.mem_cons_of_mem _ (List.mem_filter.mpr ⟨ih hr, by simp [has]⟩)

/-- C8: for every composed inheritance chain whose class declarations do not
themselves reuse the reserved names, the merged schema carries the _id field
(type String, default null) exactly once regardless of inheritance depth,
and a class that has a parent additionally carries a _type field defaulting
to that class own name. -/
theorem c8_schema_id_and_type (c0 : ClassSpec) (rest : List ClassSpec)
    (hown : ∀ cs ∈ c0 :: rest, ∀ f ∈ cs.own, f.name ≠ idKey ∧ f.name ≠ typeKey) :
    (mergedNames (mkSchema c0 :: rest.map mkSchema)).count idKey = 1 ∧
    mergedLookup (mkSchema c0 :: rest.map mkSchema) idKey = some idField1 ∧
    (c0.hasParent = true →
      mergedLookup (mkSchema c0 :: rest.map mkSchema) typeKey =
        some { name := typeKey, type := some .stringT, default := .str c0.cname }) := by
  have hid0 : getField (mkSchema c0) idKey = some idField1 :=
    initSchema_find_id c0.hasParent c0.cname c0.own
      (fun f hf => (hown c0 (List.mem_cons_self _ _) f hf).1)
  refine ⟨?_, ?_, ?_⟩
  · have h1 : idField1 ∈ (mkSchema c0).fields := List.mem_of_find?_eq_some hid0
    have h2 : idKey ∈ (mkSchema c0).fields.map (fun f => f.name) :=
      List.mem_map_of_mem (fun f => f.name) h1
    have hmem : idKey ∈ mergedNames (mkSchema c0 :: rest.map mkSchema) := by
      apply mem_dedupFirst
      exact List.mem_append_left _ h2
    exact List.count_eq_one_of_mem (dedupFirst_nodup _) hmem
  · simp [mergedLookup, walkFieldDef, hid0]
  · intro hp
    have ht0 : getField (mkSchema c0) typeKey =
        some { name := typeKey, type := some .stringT, default := .str c0.cname } := by
      show (initSchemaFields c0.hasParent c0.cname c0.own).find? (fun g => g.name == typeKey) = _
      rw [hp]
      exact initSchema_find_type c0.cname c0.own
        (fun f hf => (hown c0 (List.mem_cons_self _ _) f hf).2)
    simp [mergedLookup, walkFieldDef, ht0]

theorem c8_schema_id_and_type_witness :
    (mergedNames (mkSchema exChildSpec :: [exParentSpec].map mkSchema)).count idKey = 1 ∧
    mergedLookup (mkSchema exChildSpec :: [exParentSpec].map mkSchema) idKey = some idField1 ∧
    mergedLookup (mkSchema exChildSpec :: [exParentSpec].map mkSchema) typeKey =
      some { name := typeKey, type := some .stringT, default := .str "Child" } := by
  have h := c8_schema_id_and_type exChildSpec [exParentSpec] (by decide)
  exact ⟨h.1, h.2.1, h.2.2 rfl⟩

end AstroFields

namespace AstroValidate

theorem docValidate_succ (w : World) (isServer : Bool) (fuel : Nat) (doc : DocV2)
    (fieldsOpt : Option (List String)) (pfx : String) (stop simulation : Bool) :
    docValidate w isServer (fuel + 1) doc fieldsOpt pfx stop simulation =
      if !simulation && !isServer then .ok ()
      else
        match
          foldSteps (stepField w (recurOf w isServer fuel) (castNested doc) pfx stop simulation)
            []
            (match fieldsOpt with
             | some fs => fs
             | none => validationOrderW w (castNested doc).1) with
        | .error e => .error e
        | .ok errors =>
          match errors with
          | [] => .ok ()
          | d :: _ => .error (.ve errors d.message) := rfl

theorem gate_sim_true (isServer : Bool) : ¬((!true && !isServer) = true) := by simp

theorem mapAppend_mapAppend (a b : List ErrDetail) (r : Except JsErr (List ErrDetail)) :
    mapAppend a (mapAppend b r) = mapAppend (a ++ b) r := by
  cases r <;> simp [mapAppend]

theorem accum_const_ok : Accum (fun e => .ok e) := by
  intro e; simp [mapAppend]

theorem accum_catchVE (r : Except JsErr Unit) : Accum (fun e => catchVE false e r) := by
  intro e
  cases r with
  | ok a => simp [catchVE, mapAppend]
  | error err =>
    cases err with
    | ve dets reason => simp [catchVE, mapAppend]
    | other m => simp [catchVE, mapAppend]

theorem accum_bindE (f g : List ErrDetail → Except JsErr (List ErrDetail))
    (hf : Accum f) (hg : Accum g) : Accum (fun e => bindE (f e) g) := by
  intro e
  show bindE (f e) g = mapAppend e (bindE (f []) g)
  rw [hf e]
  cases hfe : f [] with
  | error err => simp [mapAppend, bindE]
  | ok d =>
    show g (e ++ d) = mapAppend e (g d)
    rw [show g (e ++ d) = mapAppend (e ++ d) (g []) from hg (e ++ d),
      show g d = mapAppend d (g []) from hg d, mapAppend_mapAppend]

theorem accum_foldSteps {α : Type} (g : List ErrDetail → α → Except JsErr (List ErrDetail))
    (hg : ∀ x, Accum (fun e => g e x)) (xs : List α) :
    Accum (fun e => foldSteps g e xs) := by
  induction xs with
  | nil => intro e; simp [foldSteps, mapAppend]
  | cons x xs ih =>
    intro e
    show foldSteps g e (x :: xs) = mapAppend e (foldSteps g [] (x :: xs))
    simp only [foldSteps]
    rw [show g e x = mapAppend e (g [] x) from hg x e]
    cases hx : g [] x with
    | error err => simp [mapAppend]
    | ok d =>
      show foldSteps g (e ++ d) xs = mapAppend e (foldSteps g d xs)
      rw [show foldSteps g (e ++ d) xs = mapAppend (e ++ d) (foldSteps g [] xs) from ih (e ++ d),
        show foldSteps g d xs = mapAppend d (foldSteps g [] xs) from ih d, mapAppend_mapAppend]

theorem accum_kindStep (w : World)
    (recur : DocV2 → Option (List String) → String → Bool → Bool → Except JsErr Unit)
    (pfx : String) (field : FieldDefV2) (value : Value) :
    Accum (fun e => kindStep w recur pfx false field value e) := by
  obtain ⟨nm, kd, opt, tr, df⟩ := field
  cases kd with
  | scalar t => exact accum_const_ok
  | listScalar t => exact accum_const_ok
  | objectF c =>
    cases value
    case inst c2 vs => exact accum_catchVE _
    all_goals exact accum_const_ok
  | listClass c =>
    cases value
    case list xs =>
      exact accum_foldSteps _
        (fun p => by
          cases hp : p.2
          case inst c2 vs => exact accum_catchVE _
          all_goals exact accum_const_ok)
        xs.enum
    all_goals exact accum_const_ok

theorem accum_stepField (w : World)
    (recur : DocV2 → Option (List String) → String → Bool → Bool → Except JsErr Unit)
    (doc : DocV2) (pfx : String) (sim : Bool) (name : String) :
    Accum (fun e => stepField w recur doc pfx false sim e name) := by
  cases hn : isNestedFieldName name with
  | true =>
    simp only [stepField, hn, if_true]
    exact accum_foldSteps _ (fun nd => accum_catchVE _) _
  | false =>
    simp only [stepField, hn, Bool.false_eq_true, if_false]
    cases hf : getFieldW w doc.1 name with
    | none => exact accum_const_ok
    | some field =>
      cases htr : field.transient with
      | true => simp only [htr, if_true]; exact accum_const_ok
      | false =>
        simp only [htr, Bool.false_eq_true, if_false]
        cases ho : field.optional && isNil (getV2 w doc name) with
        | true => simp only [ho, if_true]; exact accum_const_ok
        | false =>
          simp only [ho, Bool.false_eq_true, if_false]
          exact accum_bindE _ _ (accum_catchVE _) (accum_kindStep w recur pfx field _)

theorem foldSteps_pre {α : Type} (g : List ErrDetail → α → Except JsErr (List ErrDetail))
    (pre rest : List α) (h : ∀ n ∈ pre, g [] n = .ok []) :
    foldSteps g [] (pre ++ rest) = foldSteps g [] rest := by
  induction pre with
  | nil => rfl
  | cons n ns ih =>
    show foldSteps g [] (n :: (ns ++ rest)) = _
    simp only [foldSteps]
    rw [h n (List.mem_cons_self _ _)]
    exact ih (fun m hm => h m (List.mem_cons_of_mem _ hm))

theorem foldSteps_all_nil {α : Type} (g : List ErrDetail → α → Except JsErr (List ErrDetail))
    (gs : List α) (h : ∀ n ∈ gs, g [] n = .ok []) :
    foldSteps g [] gs = .ok [] := by
  induction gs with
  | nil => rfl
  | cons n ns ih =>
    simp only [foldSteps]
    rw [h n (List.mem_cons_self _ _)]
    exact ih (fun m hm => h m (List.mem_cons_of_mem _ hm))

theorem foldSteps_collect (g : List ErrDetail → String → Except JsErr (List ErrDetail))
    (ds : String → List ErrDetail) (fs : List String)
    (hacc : ∀ n, Accum (fun e => g e n))
    (h : ∀ n ∈ fs, g [] n = .ok (ds n)) :
    foldSteps g [] fs = .ok (catList ds fs) := by
  induction fs with
  | nil => rfl
  | cons n ns ih =>
    simp only [foldSteps]
    rw [h n (List.mem_cons_self _ _)]
    show foldSteps g (ds n) ns = .ok (catList ds (n :: ns))
    rw [show foldSteps g (ds n) ns = mapAppend (ds n) (foldSteps g [] ns) from
        accum_foldSteps g hacc ns (ds n),
      ih (fun m hm => h m (List.mem_cons_of_mem _ hm))]
    simp [catList, mapAppend]

theorem catList_ne_nil (ds : String → List ErrDetail) (fs : List String) (n : String)
    (hn : n ∈ fs) (hd : ds n ≠ []) : catList ds fs ≠ [] := by
  induction fs with
  | nil => cases hn
  | cons m ms ih =>
    simp only [catList]
    intro hcontra
    rcases List.append_eq_nil.mp hcontra with ⟨h1, h2⟩
    rcases List.mem_cons.mp hn with rfl | hr
    · exact hd h1
    · exact ih hr h2

end AstroValidate

namespace AstroValidate

/-- C1: with two independently failing fields in the walk, stopOnFirstError
true throws the first error found (the outcome does not depend on the
fields after the first failing one), while stopOnFirstError false walks
every field, collects every error into one ordered list and throws exactly
once at the end with that full list; a walk that collects nothing throws
nothing. -/
theorem c1_stop_vs_collect (w : World) (isServer : Bool) (fuel : Nat) (doc : DocV2)
    (pfx : String) (pre post : List String) (f1 : String) (el : List ErrDetail) (em : String)
    (ds : String → List ErrDetail)
    (hpre : ∀ n ∈ pre,
      stepField w (recurOf w isServer fuel) (castNested doc) pfx true true [] n = .ok [])
    (hf1 : stepField w (recurOf w isServer fuel) (castNested doc) pfx true true [] f1 =
      .error (.ve el em))
    (hcol : ∀ n ∈ pre ++ f1 :: post,
      stepField w (recurOf w isServer fuel) (castNested doc) pfx false true [] n = .ok (ds n))
    (htwo : ∃ n1, n1 ∈ pre ++ f1 :: post ∧ ∃ n2, n2 ∈ pre ++ f1 :: post ∧ n1 ≠ n2 ∧
      ds n1 ≠ [] ∧ ds n2 ≠ []) :
    docValidate w isServer (fuel + 1) doc (some (pre ++ f1 :: post)) pfx true true =
      .error (.ve el em) ∧
    (∃ dh dt, catList ds (pre ++ f1 :: post) = dh :: dt ∧
      docValidate w isServer (fuel + 1) doc (some (pre ++ f1 :: post)) pfx false true =
        .error (.ve (dh :: dt) dh.message)) ∧
    (∀ gs : List String,
      (∀ n ∈ gs,
        stepField w (recurOf w isServer fuel) (castNested doc) pfx false true [] n = .ok []) →
      docValidate w isServer (fuel + 1) doc (some gs) pfx false true = .ok ()) := by
  refine ⟨?_, ?_, ?_⟩
  · rw [docValidate_succ, if_neg (gate_sim_true isServer)]
    rw [foldSteps_pre _ pre (f1 :: post) hpre]
    simp only [foldSteps]
    rw [hf1]
  · obtain ⟨n1, hn1, _, _, _, hd1, _⟩ := htwo
    have hfold := foldSteps_collect _ ds (pre ++ f1 :: post)
      (fun n => accum_stepField w (recurOf w isServer fuel) (castNested doc) pfx true n) hcol
    have hne2 : catList ds (pre ++ f1 :: post) ≠ [] := catList_ne_nil ds _ n1 hn1 hd1
    cases hcat : catList ds (pre ++ f1 :: post) with
    | nil => exact absurd hcat hne2
    | cons dh dt =>
      refine ⟨dh, dt, rfl, ?_⟩
      rw [docValidate_succ, if_neg (gate_sim_true isServer)]
      rw [hfold, hcat]
  · intro gs hgs
    rw [docValidate_succ, if_neg (gate_sim_true isServer)]
    rw [foldSteps_all_nil _ gs hgs]

theorem c1_stop_vs_collect_witness :
    docValidate w1 true 1 postDoc (some (["title"] ++ "a" :: ["b"])) strEmpty true true =
      .error (.ve [daDet] (typeFailMsg ++ "a")) ∧
    docValidate w1 true 1 postDoc (some (["title"] ++ "a" :: ["b"])) strEmpty false true =
      .error (.ve [daDet, dbDet] daDet.message) := by
  have h := c1_stop_vs_collect w1 true 0 postDoc strEmpty ["title"] ["b"] "a"
    [daDet] (typeFailMsg ++ "a") dsFun
    (by intro n hn; fin_cases hn; rfl)
    rfl
    (by intro n hn; fin_cases hn <;> rfl)
    ⟨"a", by simp, "b", by simp, by decide, by decide, by decide⟩
  obtain ⟨h1, ⟨dh, dt, hc, h2⟩, _⟩ := h
  refine ⟨h1, ?_⟩
  have hcl : catList dsFun (["title"] ++ "a" :: ["b"]) = [daDet, dbDet] := rfl
  rw [hc] at hcl
  injection hcl with hx hy
  subst hx
  subst hy
  exact h2

/-- Helper for C7: each of the three skip situations makes the field step a
silent no-op: no error entry is recorded and nothing is thrown, in either
error mode. -/
theorem stepField_skip (w : World)
    (recur : DocV2 → Option (List String) → String → Bool → Bool → Except JsErr Unit)
    (doc : DocV2) (pfx : String) (stop sim : Bool) (errors : List ErrDetail) (n : String)
    (h : SkipCase w doc n) :
    stepField w recur doc pfx stop sim errors n = .ok errors := by
  obtain ⟨hn, hcase⟩ := h
  simp only [stepField, hn, Bool.false_eq_true, if_false]
  rcases hcase with hnone | ⟨f, hf, htr⟩ | ⟨f, hf, htr, hopt, hnil⟩
  · rw [hnone]
  · rw [hf]
    simp only [htr, if_true]
  · rw [hf]
    simp only [htr, Bool.false_eq_true, if_false, hopt, hnil, Bool.and_self, if_true]

/-- C7: documentValidate produces no error entry and no throw for a field
name that resolves to no field definition, for a transient field (whatever
its value), or for an optional field whose current value is absent, in
either error mode; an optional field with a present invalid value does
produce the error of its validation block. -/
theorem c7_skip_rules (w : World) (isServer : Bool) :
    (∀ recur doc pfx stop sim errors n, SkipCase w doc n →
      stepField w recur doc pfx stop sim errors n = .ok errors) ∧
    (∀ (fuel : Nat) (doc : DocV2) (pfx : String) (stop : Bool) (fs : List String),
      (∀ n ∈ fs, SkipCase w doc n) →
      docValidate w isServer (fuel + 1) doc (some fs) pfx stop true = .ok ()) ∧
    (∀ (fuel : Nat) (doc : DocV2) (pfx n : String) (field : FieldDefV2)
      (el : List ErrDetail) (em : String),
      isNestedFieldName n = false →
      getFieldW w doc.1 n = some field →
      field.transient = false →
      field.optional = true →
      isNil (getV2 w doc n) = false →
      ownValidation w doc.1 field n pfx (getV2 w doc n) = .error (.ve el em) →
      docValidate w isServer (fuel + 1) doc (some [n]) pfx true true = .error (.ve el em)) := by
  refine ⟨fun recur doc pfx stop sim errors n h => stepField_skip w recur doc pfx stop sim errors n h,
    ?_, ?_⟩
  · intro fuel doc pfx stop fs hfs
    rw [docValidate_succ, if_neg (gate_sim_true isServer)]
    rw [foldSteps_all_nil _ fs
      (fun n hn => stepField_skip w (recurOf w isServer fuel) (castNested doc) pfx stop true [] n
        (hfs n hn))]
  · intro fuel doc pfx n field el em hn hf htr hopt hnil hown
    rw [docValidate_succ, if_neg (gate_sim_true isServer)]
    simp only [castNested, foldSteps, stepField, hn, Bool.false_eq_true, if_false, hf, htr,
      hopt, hnil, Bool.and_false, hown, bindE, catchVE, if_true]

end AstroValidate

namespace AstroValidate

theorem c7_skip_rules_witness :
    docValidate w1 true 1 postDoc (some ["ghost", "tmp", "opt"]) strEmpty true true = .ok () ∧
    docValidate w1 true 1 postDocOpt (some ["opt"]) strEmpty true true =
      .error (.ve [{ name := "opt", vtype := typeVKey, message := typeFailMsg ++ "opt" }]
        (typeFailMsg ++ "opt")) := by
  have h := c7_skip_rules w1 true
  constructor
  · refine h.2.1 0 postDoc strEmpty true ["ghost", "tmp", "opt"] ?_
    intro n hn
    fin_cases hn
    · exact ⟨rfl, Or.inl rfl⟩
    · exact ⟨rfl, Or.inr (Or.inl ⟨tmpFld, rfl, rfl⟩)⟩
    · exact ⟨rfl, Or.inr (Or.inr ⟨optFld, rfl, rfl, rfl, rfl⟩)⟩
  · exact h.2.2 0 postDocOpt strEmpty ("opt") optFld _ _ rfl rfl rfl rfl rfl rfl

/-- C2: for an object field whose resolved value is a class instance, the
walk recurses into that instance with the path extended by the field name
and a dot, handing the caller stopOnFirstError flag down; for a
list-of-class field it recurses into each element that is a class instance
with the element index spliced between dots, again handing
stopOnFirstError down.  (The nested calls revert simulation to its default
true, exactly as the source omits it.) -/
theorem c2_nested_recursion (w : World)
    (recur : DocV2 → Option (List String) → String → Bool → Bool → Except JsErr Unit)
    (doc : DocV2) (pfx : String) (stop sim : Bool) (errors : List ErrDetail)
    (name : String) (field : FieldDefV2)
    (hn : isNestedFieldName name = false)
    (hf : getFieldW w doc.1 name = some field)
    (ht : field.transient = false) :
    (∀ ocls c vs, field.kind = .objectF ocls → getV2 w doc name = .inst c vs →
      stepField w recur doc pfx stop sim errors name =
        bindE (catchVE stop errors (ownValidation w doc.1 field name pfx (.inst c vs)))
          (fun errors1 =>
            catchVE stop errors1
              (recur (c, vs) (some (validationOrderW w c)) (pfx ++ field.name ++ dotStr)
                stop true))) ∧
    (∀ lcls elems, field.kind = .listClass lcls → getV2 w doc name = .list elems →
      stepField w recur doc pfx stop sim errors name =
        bindE (catchVE stop errors (ownValidation w doc.1 field name pfx (.list elems)))
          (fun errors1 =>
            foldSteps
              (fun errs p =>
                match p.2 with
                | .inst c vs =>
                  catchVE stop errs
                    (recur (c, vs) (some (validationOrderW w c))
                      (pfx ++ field.name ++ dotStr ++ Nat.repr p.1 ++ dotStr) stop true)
                | _ => .ok errs)
              errors1 elems.enum)) := by
  constructor
  · intro ocls c vs hk hv
    simp only [stepField, hn, Bool.false_eq_true, if_false, hf, ht, hv, isNil, Bool.and_false,
      kindStep, hk]
  · intro lcls elems hk hv
    simp only [stepField, hn, Bool.false_eq_true, if_false, hf, ht, hv, isNil, Bool.and_false,
      kindStep, hk]

theorem c2_nested_recursion_witness :
    (stepField w2 (recurOf w2 true 1) outerDoc2 strEmpty true true [] ("child") =
      bindE
        (catchVE true []
          (ownValidation w2 ("Outer") childFld ("child") strEmpty
            (.inst ("Inner") innerBadVals)))
        (fun errors1 =>
          catchVE true errors1
            (recurOf w2 true 1 (("Inner"), innerBadVals)
              (some (validationOrderW w2 ("Inner"))) (strEmpty ++ childFld.name ++ dotStr)
              true true))) ∧
    (stepField w2 (recurOf w2 true 1) outerDoc2 strEmpty false true [] ("items") =
      bindE
        (catchVE false []
          (ownValidation w2 ("Outer") itemsFld ("items") strEmpty
            (.list [.inst ("Inner") [(("age"), .num 1)], .inst ("Inner") innerBadVals])))
        (fun errors1 =>
          foldSteps
            (fun errs p =>
              match p.2 with
              | .inst c vs =>
                catchVE false errs
                  (recurOf w2 true 1 (c, vs) (some (validationOrderW w2 c))
                    (strEmpty ++ itemsFld.name ++ dotStr ++ Nat.repr p.1 ++ dotStr) false true)
              | _ => .ok errs)
            errors1
            ([Value.inst ("Inner") [(("age"), .num 1)], Value.inst ("Inner") innerBadVals]).enum)) ∧
    docValidate w2 true 2 outerDoc2 (some ["child"]) strEmpty true true =
      .error (.ve [⟨"child.age", typeVKey, typeFailMsg ++ "child.age"⟩]
        (typeFailMsg ++ "child.age")) ∧
    docValidate w2 true 2 outerDoc2 (some ["items"]) strEmpty false true =
      .error (.ve [⟨"items.1.age", typeVKey, typeFailMsg ++ "items.1.age"⟩]
        (typeFailMsg ++ "items.1.age")) := by
  have ho := c2_nested_recursion w2 (recurOf w2 true 1) outerDoc2 strEmpty true true []
    ("child") childFld rfl rfl rfl
  have hl := c2_nested_recursion w2 (recurOf w2 true 1) outerDoc2 strEmpty false true []
    ("items") itemsFld rfl rfl rfl
  exact ⟨ho.1 ("Inner") ("Inner") innerBadVals rfl rfl,
    hl.2 ("Inner") [Value.inst ("Inner") [(("age"), .num 1)], Value.inst ("Inner") innerBadVals]
      rfl rfl,
    rfl, rfl⟩

end AstroValidate
